import Mathlib

/-!
Shallow embedding of `src/RedBlackTree.cpp` (repository Mitchmer/Red-Black-Tree).

The C++ code is an order-statistics-augmented red-black tree built from
heap-allocated `Node` records linked by raw pointers (`left`, `right`,
`parent`) and mutated in place.  We model the heap as a list of `Node`
records addressed by allocation index; a pointer is an `Option Nat`
(`none` = `nullptr`).  Every C++ statement is translated in source order:
reads through a possibly-null pointer go through `readP` (a null
dereference, undefined behaviour in C++, is the explicit error
`Err.nullDeref`), the `throw runtime_error` in `rotateWithParent` is the
error `Err.rootRot`, and loops (`while` in the C++) take an explicit fuel
argument, returning `Err.noFuel` when it runs out.
-/

namespace RBTree

inductive Color where
  | RED : Color
  | BLACK : Color
deriving DecidableEq

/-- One heap-allocated `Node` record of the C++ code: key, color, the three
pointers and the subtree-size counter. -/
structure Node where
  key : Int
  color : Color
  left : Option Nat
  right : Option Nat
  parent : Option Nat
  size : Nat
deriving DecidableEq

/-- The `RedBlackTree` object: the arena of allocated nodes plus the `root`
pointer. -/
structure St where
  nodes : List Node
  root : Option Nat
deriving DecidableEq

/-- Failure modes of the embedded code: a null-pointer dereference (undefined
behaviour in the C++), the `runtime_error` thrown by `rotateWithParent` when
called on a parentless node, and fuel exhaustion of an embedded loop. -/
inductive Err where
  | nullDeref : Err
  | rootRot : Err
  | noFuel : Err
deriving DecidableEq

/-- Read the node a valid index points at. -/
def readN (h : List Node) (i : Nat) : Except Err Node :=
  match h[i]? with
  | some nd => .ok nd
  | none => .error .nullDeref

/-- Dereference a possibly-null pointer (`p->field` in the C++). -/
def readP (h : List Node) (p : Option Nat) : Except Err Node :=
  match p with
  | none => .error .nullDeref
  | some i => readN h i

/-- In-place update of the node at index `i` (a write through a valid
pointer in the C++). -/
def upd (h : List Node) (i : Nat) (f : Node → Node) : List Node :=
  match h[i]? with
  | some nd => h.set i (f nd)
  | none => h

/-- The descent loop of `RedBlackTree::insertKey` (lines 72-79): walk down
from `curr` comparing keys, incrementing `size` of every node visited
(including, in the duplicate case, the node holding the key, since
`++curr->size` precedes the comparison).  Returns the mutated heap, the last
node visited (`prev`) and whether the key was already present. -/
def insertKeyLoop (key : Int) : Nat → List Node → Option Nat → Option Nat →
    Except Err (List Node × Option Nat × Bool)
  | 0, _, _, _ => .error .noFuel
  | fuel+1, h, prev, curr =>
    match curr with
    | none => .ok (h, prev, false)
    | some i =>
      match readN h i with
      | .error e => .error e
      | .ok nd =>
        let h' := upd h i (fun n => { n with size := n.size + 1 })
        if key == nd.key then
          .ok (h', some i, true)
        else if key < nd.key then
          insertKeyLoop key fuel h' (some i) nd.left
        else
          insertKeyLoop key fuel h' (some i) nd.right

/-- `RedBlackTree::insertKey` (lines 67-99): BST descent (incrementing sizes),
then allocation of a new BLACK node of size 1 wired under `prev` (or as root).
Returns the new node's index, or `none` if the key was already present. -/
def insertKey (fuel : Nat) (st : St) (key : Int) : Except Err (St × Option Nat) :=
  match insertKeyLoop key fuel st.nodes none st.root with
  | .error e => .error e
  | .ok (h, prev, dup) =>
    if dup then
      .ok ({ nodes := h, root := st.root }, none)
    else
      let newId := h.length
      let node : Node :=
        { key := key, color := .BLACK, left := none, right := none,
          parent := prev, size := 1 }
      let h' := h ++ [node]
      match prev with
      | none => .ok ({ nodes := h', root := some newId }, some newId)
      | some p =>
        match readN h' p with
        | .error e => .error e
        | .ok pd =>
          if key < pd.key then
            .ok ({ nodes := upd h' p (fun n => { n with left := some newId }),
                   root := st.root }, some newId)
          else
            .ok ({ nodes := upd h' p (fun n => { n with right := some newId }),
                   root := st.root }, some newId)

/-- `RedBlackTree::siblingOf` (lines 318-326): the other child of the node's
parent, `nullptr` for a parentless node. -/
def siblingOf (h : List Node) (i : Nat) : Except Err (Option Nat) :=
  match readN h i with
  | .error e => .error e
  | .ok nd =>
    match nd.parent with
    | none => .ok none
    | some p =>
      match readN h p with
      | .error e => .error e
      | .ok pd => if pd.left == some i then .ok pd.right else .ok pd.left

/-- Evaluate `x != nullptr && x->color == RED` for a possibly-null pointer. -/
def isRed (h : List Node) (x : Option Nat) : Except Err Bool :=
  match x with
  | none => .ok false
  | some j =>
    match readN h j with
    | .error e => .error e
    | .ok nd => .ok (nd.color == .RED)

/-- Last statements of `RedBlackTree::rotateWithParent` (lines 313-314):
`oldParent->size = node->size;` has just produced `h6`;
`node->size = node->left->size + node->right->size + 1;` reads both
children through possibly-null pointers and writes the node's size. -/
def rotFinal (h6 : List Node) (root2 : Option Nat) (i : Nat) : Except Err St :=
  match readN h6 i with
  | .error e => .error e
  | .ok nd6 =>
    match readP h6 nd6.left with
    | .error e => .error e
    | .ok ld =>
      match readP h6 nd6.right with
      | .error e => .error e
      | .ok rd =>
        .ok { nodes := upd h6 i (fun n => { n with size := ld.size + rd.size + 1 }),
              root := root2 }

/-- `oldParent->size = node->size;` (line 313) on the heap `h5` produced by
the parent-pointer updates, then the final size recomputation. -/
def rotSizes (h5 : List Node) (root2 : Option Nat) (i p : Nat) : Except Err St :=
  match readN h5 i with
  | .error e => .error e
  | .ok nd5 => rotFinal (upd h5 p (fun n => { n with size := nd5.size })) root2 i

/-- `node->parent = oldParent->parent; oldParent->parent = node;`
(lines 309-311) on the heap `h3` produced by the child's parent fix, then
the size bookkeeping. -/
def rotParents (h3 : List Node) (root2 : Option Nat) (i p : Nat) : Except Err St :=
  match readN h3 p with
  | .error e => .error e
  | .ok pd3 =>
    rotSizes (upd (upd h3 i (fun n => { n with parent := pd3.parent })) p
                (fun n => { n with parent := some i })) root2 i p

/-- `if (child != nullptr) child->parent = node->parent;` (line 307, with
`node->parent` still holding the old parent `p`) on the heap `h2` produced
by the grandparent re-pointing, then the rest. -/
def rotChildFix (h2 : List Node) (root2 : Option Nat) (i p : Nat) (child : Option Nat) :
    Except Err St :=
  match child with
  | some c => rotParents (upd h2 c (fun n => { n with parent := some p })) root2 i p
  | none => rotParents h2 root2 i p

/-- Step 2 of `RedBlackTree::rotateWithParent` (lines 288-296): read the
grandparent through `node->parent->parent` on the heap `h1` produced by the
local child surgery; re-point its child that was `p` to the rotated node,
or make the rotated node the root; then the rest. -/
def rotGrand (h1 : List Node) (root : Option Nat) (i p : Nat) (child : Option Nat) :
    Except Err St :=
  match readN h1 p with
  | .error e => .error e
  | .ok pd1 =>
    match pd1.parent with
    | some g =>
      match readN h1 g with
      | .error e => .error e
      | .ok gd =>
        if gd.left == some p then
          rotChildFix (upd h1 g (fun n => { n with left := some i })) root i p child
        else
          rotChildFix (upd h1 g (fun n => { n with right := some i })) root i p child
    | none => rotChildFix h1 (some i) i p child

/-- `RedBlackTree::rotateWithParent` (lines 265-315), statement by
statement: the parentless check (the C++ `throw`), then the local rotation
(step 1, lines 275-286: the node adopts its parent as the child on the side
it came from, and the displaced middle child takes the node's place under
the old parent), then steps 2-3 and the size bookkeeping via the helper
functions above. -/
def rotateWithParent (st : St) (i : Nat) : Except Err St :=
  match readN st.nodes i with
  | .error e => .error e
  | .ok nd =>
    match nd.parent with
    | none => .error .rootRot
    | some p =>
      match readN st.nodes p with
      | .error e => .error e
      | .ok pd =>
        if pd.left == some i then
          rotGrand (upd (upd st.nodes i (fun n => { n with right := some p })) p
                      (fun n => { n with left := nd.right })) st.root i p nd.right
        else
          rotGrand (upd (upd st.nodes i (fun n => { n with left := some p })) p
                      (fun n => { n with right := nd.left })) st.root i p nd.left

/-- `RedBlackTree::fixupFrom` (lines 102-260): the bottom-up repair loop.
Case order follows the source: stop at the root; 2-node (black parent, no red
sibling): color the node red and stop; 3-node with black parent (red
sibling): likewise; 3-node with red parent and non-red aunt: zig-zag
(rotate twice, recolor the old grandparent red) or zig-zig (rotate the
parent, recolor) and stop; otherwise a 4-node: recolor parent, aunt and
node and continue from the grandparent.  The zig orientation test and the
`aunt->color` / `node = grandparent` steps dereference pointers the source
never checks; those are `nullDeref` like every other unchecked dereference. -/
def fixupFrom : Nat → St → Nat → Except Err St
  | 0, _, _ => .error .noFuel
  | fuel+1, st, i =>
    match readN st.nodes i with
    | .error e => .error e
    | .ok nd =>
      match nd.parent with
      | none => .ok st
      | some p =>
        match readN st.nodes p with
        | .error e => .error e
        | .ok pd =>
          match siblingOf st.nodes i with
          | .error e => .error e
          | .ok sibling =>
            match siblingOf st.nodes p with
            | .error e => .error e
            | .ok aunt =>
              match isRed st.nodes sibling with
              | .error e => .error e
              | .ok sRed =>
                match isRed st.nodes aunt with
                | .error e => .error e
                | .ok aRed =>
                  if pd.color == .BLACK && !sRed then
                    -- insert into a 2-node
                    .ok { st with
                          nodes := upd st.nodes i (fun n => { n with color := .RED }) }
                  else if pd.color == .BLACK && sRed then
                    -- insert into a 3-node, black parent
                    .ok { st with
                          nodes := upd st.nodes i (fun n => { n with color := .RED }) }
                  else if pd.color == .RED && !aRed then
                    -- insert into a 3-node, red parent
                    match pd.parent with
                    | none => .error .nullDeref  -- grandparent->left dereference
                    | some g =>
                      match readN st.nodes g with
                      | .error e => .error e
                      | .ok gd =>
                        if (pd.left == some i) != (gd.left == some p) then
                          -- zig-zag
                          match rotateWithParent st i with
                          | .error e => .error e
                          | .ok st1 =>
                            match rotateWithParent st1 i with
                            | .error e => .error e
                            | .ok st2 =>
                              .ok { st2 with
                                    nodes := upd st2.nodes g (fun n => { n with color := .RED }) }
                        else
                          -- zig-zig
                          match rotateWithParent st p with
                          | .error e => .error e
                          | .ok st1 =>
                            let h := upd st1.nodes p
                              (fun n => { n with color := .BLACK })
                            let h := upd h i (fun n => { n with color := .RED })
                            let h := upd h g (fun n => { n with color := .RED })
                            .ok { st1 with nodes := h }
                  else
                    -- insert into a 4-node: recolor and continue upward
                    match aunt with
                    | none => .error .nullDeref  -- aunt->color dereference
                    | some a =>
                      let h := upd st.nodes p (fun n => { n with color := .BLACK })
                      let h := upd h a (fun n => { n with color := .BLACK })
                      let h := upd h i (fun n => { n with color := .RED })
                      match pd.parent with
                      | none => .error .nullDeref  -- node->parent with node null
                      | some g => fixupFrom fuel { st with nodes := h } g

/-- `RedBlackTree::insert` (lines 51-61): raw insertion then fixup; `false`
means the key was a duplicate. -/
def insert (fuel : Nat) (st : St) (key : Int) : Except Err (St × Bool) :=
  match insertKey fuel st key with
  | .error e => .error e
  | .ok (st1, newNode) =>
    match newNode with
    | none => .ok (st1, false)
    | some n =>
      match fixupFrom fuel st1 n with
      | .error e => .error e
      | .ok st2 => .ok (st2, true)

/-- Run `insert` for each key in turn, starting from the given state. -/
def insertListFrom (fuel : Nat) : St → List Int → Except Err St
  | st, [] => .ok st
  | st, k :: ks =>
    match insert fuel st k with
    | .error e => .error e
    | .ok (st', _) => insertListFrom fuel st' ks

/-- Run `insert` for each key in turn, starting from the empty tree. -/
def insertList (fuel : Nat) (keys : List Int) : Except Err St :=
  insertListFrom fuel { nodes := [], root := none } keys

/-- The loop of `RedBlackTree::contains` (lines 38-46). -/
def containsLoop (key : Int) : Nat → List Node → Option Nat → Except Err Bool
  | 0, _, _ => .error .noFuel
  | fuel+1, h, curr =>
    match curr with
    | none => .ok false
    | some i =>
      match readN h i with
      | .error e => .error e
      | .ok nd =>
        if key == nd.key then .ok true
        else if key < nd.key then containsLoop key fuel h nd.left
        else containsLoop key fuel h nd.right

/-- `RedBlackTree::contains`. -/
def containsE (fuel : Nat) (st : St) (key : Int) : Except Err Bool :=
  containsLoop key fuel st.nodes st.root

/-- The loop of `RedBlackTree::rankOf` (lines 354-378).  The loop guard is
`current != nullptr && current->key != key`, so the in-body `else` branch
(equal keys) of the source is dead code and has no corresponding branch
here: the loop simply stops, returning the accumulated `rank`, as soon as
`current` is null or holds the key. -/
def rankLoop (key : Int) : Nat → List Node → Option Nat → Nat → Except Err Nat
  | 0, _, _, _ => .error .noFuel
  | fuel+1, h, curr, rank =>
    match curr with
    | none => .ok rank
    | some i =>
      match readN h i with
      | .error e => .error e
      | .ok nd =>
        if nd.key == key then .ok rank
        else if key > nd.key then
          match nd.left with
          | none => rankLoop key fuel h nd.right (rank + 1)
          | some l =>
            match readN h l with
            | .error e => .error e
            | .ok ld => rankLoop key fuel h nd.right (rank + ld.size + 1)
        else
          rankLoop key fuel h nd.left rank

/-- `RedBlackTree::rankOf` (lines 342-384): the unguarded
`current->key == key` pre-check on the root (a null dereference on an empty
tree), adding `size(root.left)` when the root holds the key, then the
descent loop. -/
def rankOfE (fuel : Nat) (st : St) (key : Int) : Except Err Nat :=
  match readP st.nodes st.root with
  | .error e => .error e
  | .ok rt =>
    if rt.key == key then
      match rt.left with
      | none => rankLoop key fuel st.nodes st.root 0
      | some l =>
        match readN st.nodes l with
        | .error e => .error e
        | .ok ld => rankLoop key fuel st.nodes st.root ld.size
    else
      rankLoop key fuel st.nodes st.root 0

/-- The loop of `RedBlackTree::select` (lines 401-421):
on a right descent the code moves first and then reads
`current->left` through the moved-to pointer (a null dereference when it
just walked off the tree); on a left descent it sets
`currentRank = current->left->size` — the size of the whole node it is
about to move to, read through `current->left` unguarded; on equality it
stops.  Falling out of the loop with `current == nullptr` reaches the
`return current->key` after the loop, a null dereference. -/
def selectLoop (rank : Nat) : Nat → List Node → Option Nat → Nat → Except Err Int
  | 0, _, _, _ => .error .noFuel
  | fuel+1, h, curr, currentRank =>
    match curr with
    | none => .error .nullDeref  -- return current->key with current null
    | some i =>
      match readN h i with
      | .error e => .error e
      | .ok nd =>
        if rank > currentRank then
          match readP h nd.right with
          | .error e => .error e
          | .ok nd2 =>
            match nd2.left with
            | none => selectLoop rank fuel h nd.right currentRank
            | some l =>
              match readN h l with
              | .error e => .error e
              | .ok ld => selectLoop rank fuel h nd.right (currentRank + ld.size + 1)
        else if rank < currentRank then
          match readP h nd.left with
          | .error e => .error e
          | .ok ld => selectLoop rank fuel h nd.left ld.size
        else
          .ok nd.key

/-- `RedBlackTree::select` (lines 387-426): seed `currentRank` with
`size(root.left)` (guarded), run the loop; an empty tree reaches the
unguarded `return current->key`. -/
def selectE (fuel : Nat) (st : St) (rank : Nat) : Except Err Int :=
  match st.root with
  | none => .error .nullDeref
  | some r =>
    match readN st.nodes r with
    | .error e => .error e
    | .ok rt =>
      match rt.left with
      | none => selectLoop rank fuel st.nodes (some r) 0
      | some l =>
        match readN st.nodes l with
        | .error e => .error e
        | .ok ld => selectLoop rank fuel st.nodes (some r) ld.size

/-- The subtree-size stored for an optional child, with `size(absent) = 0`
(spec §3, invariant 5). -/
def childSize (h : List Node) (x : Option Nat) : Nat :=
  match x with
  | none => 0
  | some j =>
    match h[j]? with
    | some nd => nd.size
    | none => 0

/-- Invariant 5 at one node: `size(n) = 1 + size(n.left) + size(n.right)`. -/
def sizeOkAt (h : List Node) (nd : Node) : Bool :=
  nd.size == childSize h nd.left + childSize h nd.right + 1

/-- Invariant 5 over the whole structure (every allocated node; the code
never frees a node except at whole-tree teardown, so the arena is exactly
the node set of the tree). -/
def sizeInvHolds (st : St) : Bool :=
  st.nodes.all (sizeOkAt st.nodes)

/-- Abstract (pointer-free) finite binary trees, used to state which linked
structures the heap can represent. -/
inductive FTree where
  | leaf : FTree
  | node : FTree → Int → FTree → FTree
deriving DecidableEq

/-- In-order key list of an abstract tree. -/
def FTree.keys : FTree → List Int
  | .leaf => []
  | .node l k r => FTree.keys l ++ k :: FTree.keys r

/-- Node count of an abstract tree. -/
def FTree.sz : FTree → Nat
  | .leaf => 0
  | .node l _ r => FTree.sz l + FTree.sz r + 1

/-- `Models h x t`: starting from the pointer `x`, the heap `h` lays out
exactly the abstract tree `t` (so the linked structure under `x` is a
finite tree: every reachable index is allocated and the structure is
acyclic). -/
inductive Models (h : List Node) : Option Nat → FTree → Prop
  | leaf : Models h none .leaf
  | node {i : Nat} {nd : Node} {l r : FTree} :
      h[i]? = some nd → Models h nd.left l → Models h nd.right r →
      Models h (some i) (.node l nd.key r)

/-- The state produced by inserting 10, 5, 20, 3, 7, 15, 25 (in that order)
into the empty tree; `insertList` provably returns it (no rotation fires
for this sequence, only recolorings). -/
def tree7 : St :=
  { nodes :=
      [{ key := 10, color := .BLACK, left := some 1, right := some 2, parent := none, size := 7 },
       { key := 5, color := .BLACK, left := some 3, right := some 4, parent := some 0, size := 3 },
       { key := 20, color := .BLACK, left := some 5, right := some 6, parent := some 0, size := 3 },
       { key := 3, color := .RED, left := none, right := none, parent := some 1, size := 1 },
       { key := 7, color := .RED, left := none, right := none, parent := some 1, size := 1 },
       { key := 15, color := .RED, left := none, right := none, parent := some 2, size := 1 },
       { key := 25, color := .RED, left := none, right := none, parent := some 2, size := 1 }],
    root := some 0 }

/-- The abstract tree laid out by `tree7`. -/
def t7F : FTree :=
  .node (.node (.node .leaf 3 .leaf) 5 (.node .leaf 7 .leaf)) 10
    (.node (.node .leaf 15 .leaf) 20 (.node .leaf 25 .leaf))

/-- The heap state reached in the middle of `insert 3` after inserting 1
then 2: sizes along the search path are already incremented (this is the
state at which the zig-zig case calls `rotateWithParent` on the node
holding 2).  Its size counters satisfy invariant 5. -/
def zigzigPre : St :=
  { nodes :=
      [{ key := 1, color := .BLACK, left := none, right := some 1, parent := none, size := 3 },
       { key := 2, color := .RED, left := none, right := some 2, parent := some 0, size := 2 },
       { key := 3, color := .BLACK, left := none, right := none, parent := some 1, size := 1 }],
    root := some 0 }

/-- The heap state reached in the middle of `insert 2` after inserting 1
then 3 (the state at which the zig-zag case calls `rotateWithParent` on the
freshly attached node holding 2, which has no children).  Its size counters
satisfy invariant 5. -/
def zigzagPre : St :=
  { nodes :=
      [{ key := 1, color := .BLACK, left := none, right := some 1, parent := none, size := 3 },
       { key := 3, color := .RED, left := some 2, right := none, parent := some 0, size := 2 },
       { key := 2, color := .BLACK, left := none, right := none, parent := some 1, size := 1 }],
    root := some 0 }

/-! ## Helper lemmas about the heap primitives -/

theorem upd_length (h : List Node) (i : Nat) (f : Node → Node) :
    (upd h i f).length = h.length := by
  unfold upd
  split
  · exact List.length_set h _ _
  · rfl

theorem upd_getElem (h : List Node) (i j : Nat) (f : Node → Node) :
    (upd h i f)[j]? = if j = i then (h[j]?).map f else h[j]? := by
  unfold upd
  rcases hi : h[i]? with _ | nd
  · by_cases hji : j = i
    · subst hji; simp [hi]
    · simp [hji]
  · have hlen : i < h.length := (List.getElem?_eq_some_iff.1 hi).1
    by_cases hji : j = i
    · subst hji
      simp [List.getElem?_set_self hlen, hi]
    · simp [List.getElem?_set_ne (Ne.symm hji), hji]

theorem readN_ok_iff {h : List Node} {i : Nat} {nd : Node} :
    readN h i = .ok nd ↔ h[i]? = some nd := by
  unfold readN
  split <;> simp_all [List.getElem?_eq_none]

theorem readN_err {h : List Node} {i : Nat} {e : Err} (he : readN h i = .error e) :
    e = .nullDeref := by
  unfold readN at he
  split at he
  · cases he
  · cases he; rfl

theorem readP_err {h : List Node} {x : Option Nat} {e : Err} (he : readP h x = .error e) :
    e = .nullDeref := by
  unfold readP at he
  split at he
  · cases he; rfl
  · exact readN_err he

theorem readN_ne_rootRot (h : List Node) (i : Nat) : readN h i ≠ .error .rootRot := by
  intro he
  cases readN_err he

theorem readP_ne_rootRot (h : List Node) (x : Option Nat) : readP h x ≠ .error .rootRot := by
  intro he
  cases readP_err he

theorem siblingOf_ne_rootRot (h : List Node) (i : Nat) :
    siblingOf h i ≠ .error .rootRot := by
  unfold siblingOf
  split
  · next e heq => intro hc; cases hc; cases readN_err heq
  · next nd heq =>
    split
    · simp
    · split
      · next e heq2 => intro hc; cases hc; cases readN_err heq2
      · next pd heq2 => split <;> simp

theorem isRed_ne_rootRot (h : List Node) (x : Option Nat) :
    isRed h x ≠ .error .rootRot := by
  unfold isRed
  split
  · simp
  · split
    · next e heq => intro hc; cases hc; cases readN_err heq
    · simp

theorem readP_ok {h : List Node} {x : Option Nat} {nd : Node} (hx : readP h x = .ok nd) :
    ∃ j, x = some j ∧ h[j]? = some nd := by
  unfold readP at hx
  split at hx
  · cases hx
  · exact ⟨_, rfl, readN_ok_iff.1 hx⟩

/-! ## `rotateWithParent` never throws except on a parentless node -/

theorem rotFinal_ne_rootRot (h6 : List Node) (root2 : Option Nat) (i : Nat) :
    rotFinal h6 root2 i ≠ .error .rootRot := by
  unfold rotFinal
  split
  · next e heq => intro hc; cases hc; cases readN_err heq
  · split
    · next e heq => intro hc; cases hc; cases readP_err heq
    · split
      · next e heq => intro hc; cases hc; cases readP_err heq
      · simp

theorem rotSizes_ne_rootRot (h5 : List Node) (root2 : Option Nat) (i p : Nat) :
    rotSizes h5 root2 i p ≠ .error .rootRot := by
  unfold rotSizes
  split
  · next e heq => intro hc; cases hc; cases readN_err heq
  · exact rotFinal_ne_rootRot _ _ _

theorem rotParents_ne_rootRot (h3 : List Node) (root2 : Option Nat) (i p : Nat) :
    rotParents h3 root2 i p ≠ .error .rootRot := by
  unfold rotParents
  split
  · next e heq => intro hc; cases hc; cases readN_err heq
  · exact rotSizes_ne_rootRot _ _ _ _

theorem rotChildFix_ne_rootRot (h2 : List Node) (root2 : Option Nat) (i p : Nat)
    (child : Option Nat) : rotChildFix h2 root2 i p child ≠ .error .rootRot := by
  unfold rotChildFix
  split
  · exact rotParents_ne_rootRot _ _ _ _
  · exact rotParents_ne_rootRot _ _ _ _

theorem rotGrand_ne_rootRot (h1 : List Node) (root : Option Nat) (i p : Nat)
    (child : Option Nat) : rotGrand h1 root i p child ≠ .error .rootRot := by
  unfold rotGrand
  split
  · next e heq => intro hc; cases hc; cases readN_err heq
  · split
    · split
      · next e heq => intro hc; cases hc; cases readN_err heq
      · split
        · exact rotChildFix_ne_rootRot _ _ _ _ _
        · exact rotChildFix_ne_rootRot _ _ _ _ _
    · exact rotChildFix_ne_rootRot _ _ _ _ _

/-- The C++ `throw runtime_error("Rotating node with no parent?")` fires
exactly when the rotated node has no parent, and the embedding returns the
error without producing any mutated state. -/
theorem rotate_rootRot_of_parentless {st : St} {i : Nat} {nd : Node}
    (hnd : st.nodes[i]? = some nd) (hp : nd.parent = none) :
    rotateWithParent st i = .error .rootRot := by
  unfold rotateWithParent
  simp only [readN_ok_iff.2 hnd, hp]

theorem rotate_ne_rootRot {st : St} {i : Nat} {nd : Node} {p : Nat}
    (hnd : st.nodes[i]? = some nd) (hp : nd.parent = some p) :
    rotateWithParent st i ≠ .error .rootRot := by
  unfold rotateWithParent
  simp only [readN_ok_iff.2 hnd, hp]
  split
  · next e heq => intro hc; cases hc; cases readN_err heq
  · split
    · exact rotGrand_ne_rootRot _ _ _ _ _
    · exact rotGrand_ne_rootRot _ _ _ _ _

/-! ## After a successful rotation the rotated node has a parent pointer

These lemmas track the write `node->parent = oldParent->parent` through the
stages of `rotateWithParent`: whenever the old parent's `parent` field is a
(possibly junk) non-null pointer at the time of the read, the rotated node
ends up with a non-null `parent` field in the result state.  This is what
makes the second rotation of the zig-zag fixup case unable to reach the
`throw`. -/

theorem rotFinal_ok_parent_of_i {h6 : List Node} {root2 : Option Nat} {i : Nat} {st' : St}
    (hpar : ∀ nd6, h6[i]? = some nd6 → ∃ x, nd6.parent = some x)
    (hrot : rotFinal h6 root2 i = .ok st') :
    ∃ nd' x, st'.nodes[i]? = some nd' ∧ nd'.parent = some x := by
  unfold rotFinal at hrot
  split at hrot
  · cases hrot
  · next nd6 heq =>
    split at hrot
    · cases hrot
    · next ld heql =>
      split at hrot
      · cases hrot
      · next rd heqr =>
        cases hrot
        obtain ⟨x, hx⟩ := hpar nd6 (readN_ok_iff.1 heq)
        refine ⟨{ nd6 with size := ld.size + rd.size + 1 }, x, ?_, hx⟩
        show (upd h6 i _)[i]? = _
        rw [upd_getElem, if_pos rfl, readN_ok_iff.1 heq]
        rfl

theorem rotSizes_ok_parent_of_i {h5 : List Node} {root2 : Option Nat} {i p : Nat} {st' : St}
    (hpar : ∀ nd5, h5[i]? = some nd5 → ∃ x, nd5.parent = some x)
    (hrot : rotSizes h5 root2 i p = .ok st') :
    ∃ nd' x, st'.nodes[i]? = some nd' ∧ nd'.parent = some x := by
  unfold rotSizes at hrot
  split at hrot
  · cases hrot
  · next nd5 heq =>
    refine rotFinal_ok_parent_of_i ?_ hrot
    intro nd6 h6i
    rw [upd_getElem] at h6i
    by_cases hip : i = p
    · rw [if_pos hip] at h6i
      obtain ⟨z, hz, hmap⟩ := Option.map_eq_some'.1 h6i
      obtain ⟨x, hx⟩ := hpar z hz
      exact ⟨x, by rw [← hmap]; exact hx⟩
    · rw [if_neg hip] at h6i
      exact hpar nd6 h6i

theorem rotParents_ok_parent_of_i {h3 : List Node} {root2 : Option Nat} {i p : Nat} {st' : St}
    (hpar : ∃ pd3, h3[p]? = some pd3 ∧ ∃ y, pd3.parent = some y)
    (hrot : rotParents h3 root2 i p = .ok st') :
    ∃ nd' x, st'.nodes[i]? = some nd' ∧ nd'.parent = some x := by
  obtain ⟨pd3, hpd3, y, hy⟩ := hpar
  unfold rotParents at hrot
  rw [readN_ok_iff.2 hpd3] at hrot
  refine rotSizes_ok_parent_of_i ?_ hrot
  intro nd5 h5i
  rw [upd_getElem] at h5i
  by_cases hip : i = p
  · rw [if_pos hip] at h5i
    obtain ⟨z, _, hmap⟩ := Option.map_eq_some'.1 h5i
    exact ⟨i, by rw [← hmap]⟩
  · rw [if_neg hip, upd_getElem, if_pos rfl] at h5i
    obtain ⟨z, _, hmap⟩ := Option.map_eq_some'.1 h5i
    exact ⟨y, by rw [← hmap]; exact hy⟩

theorem rotChildFix_ok_parent_of_i {h2 : List Node} {root2 : Option Nat} {i p : Nat}
    {child : Option Nat} {st' : St}
    (hpar : ∃ nd2, h2[p]? = some nd2 ∧ ∃ y, nd2.parent = some y)
    (hrot : rotChildFix h2 root2 i p child = .ok st') :
    ∃ nd' x, st'.nodes[i]? = some nd' ∧ nd'.parent = some x := by
  obtain ⟨nd2, hnd2, y, hy⟩ := hpar
  unfold rotChildFix at hrot
  split at hrot
  · next c =>
    refine rotParents_ok_parent_of_i ?_ hrot
    rw [upd_getElem]
    by_cases hpc : p = c
    · rw [if_pos hpc, hnd2]
      exact ⟨_, rfl, p, rfl⟩
    · rw [if_neg hpc, hnd2]
      exact ⟨_, rfl, y, hy⟩
  · exact rotParents_ok_parent_of_i ⟨nd2, hnd2, y, hy⟩ hrot

theorem rotGrand_ok_parent_of_i {h1 : List Node} {root : Option Nat} {i p : Nat}
    {child : Option Nat} {st' : St}
    (hpar : ∃ pd1, h1[p]? = some pd1 ∧ ∃ y, pd1.parent = some y)
    (hrot : rotGrand h1 root i p child = .ok st') :
    ∃ nd' x, st'.nodes[i]? = some nd' ∧ nd'.parent = some x := by
  obtain ⟨pd1, hpd1, y, hy⟩ := hpar
  unfold rotGrand at hrot
  simp only [readN_ok_iff.2 hpd1, hy] at hrot
  split at hrot
  · cases hrot
  · next gd heqg =>
    have hg1 : h1[y]? = some gd := readN_ok_iff.1 heqg
    split at hrot
    · refine rotChildFix_ok_parent_of_i ?_ hrot
      rw [upd_getElem]
      by_cases hpy : p = y
      · rw [if_pos hpy, hpy, hg1]
        refine ⟨_, rfl, y, ?_⟩
        show gd.parent = some y
        rw [← hpy] at hg1
        rw [hpd1] at hg1
        cases hg1
        exact hy
      · rw [if_neg hpy, hpd1]
        exact ⟨_, rfl, y, hy⟩
    · refine rotChildFix_ok_parent_of_i ?_ hrot
      rw [upd_getElem]
      by_cases hpy : p = y
      · rw [if_pos hpy, hpy, hg1]
        refine ⟨_, rfl, y, ?_⟩
        show gd.parent = some y
        rw [← hpy] at hg1
        rw [hpd1] at hg1
        cases hg1
        exact hy
      · rw [if_neg hpy, hpd1]
        exact ⟨_, rfl, y, hy⟩

/-- If the rotated node's parent itself has a non-null parent pointer (as the
zig-zag fixup case has verified by dereferencing the grandparent), then a
successful `rotateWithParent` leaves the rotated node with a non-null parent
pointer. -/
theorem rotate_ok_parent_some {st : St} {i p g : Nat} {nd pd : Node} {st' : St}
    (hnd : st.nodes[i]? = some nd) (hp : nd.parent = some p)
    (hpd : st.nodes[p]? = some pd) (hg : pd.parent = some g)
    (hrot : rotateWithParent st i = .ok st') :
    ∃ nd' x, st'.nodes[i]? = some nd' ∧ nd'.parent = some x := by
  unfold rotateWithParent at hrot
  simp only [readN_ok_iff.2 hnd, hp, readN_ok_iff.2 hpd] at hrot
  have hup : ∀ (f1 f2 : Node → Node),
      (∀ n, (f1 n).parent = n.parent) → (∀ n, (f2 n).parent = n.parent) →
      ∃ pd1, (upd (upd st.nodes i f1) p f2)[p]? = some pd1 ∧ ∃ y, pd1.parent = some y := by
    intro f1 f2 hf1 hf2
    rw [upd_getElem, if_pos rfl, upd_getElem]
    by_cases hpi : p = i
    · rw [if_pos hpi, hpi, hnd]
      refine ⟨_, rfl, p, ?_⟩
      show (f2 (f1 nd)).parent = some p
      rw [hf2, hf1]
      exact hp
    · rw [if_neg hpi, hpd]
      refine ⟨_, rfl, g, ?_⟩
      show (f2 pd).parent = some g
      rw [hf2]
      exact hg
  split at hrot
  · exact rotGrand_ok_parent_of_i
      (hup (fun n => { n with right := some p }) (fun n => { n with left := nd.right })
        (fun _ => rfl) (fun _ => rfl)) hrot
  · exact rotGrand_ok_parent_of_i
      (hup (fun n => { n with left := some p }) (fun n => { n with right := nd.left })
        (fun _ => rfl) (fun _ => rfl)) hrot

/-! ## `fixupFrom` and `insert` never reach the rotation throw -/

theorem siblingOf_err {h : List Node} {i : Nat} {e : Err}
    (he : siblingOf h i = .error e) : e = .nullDeref := by
  by_contra hne
  rcases e with _ | _ | _
  · exact hne rfl
  · exact siblingOf_ne_rootRot h i he
  · unfold siblingOf at he
    split at he
    · next e' heq => cases he; cases readN_err heq
    · split at he
      · cases he
      · split at he
        · next e' heq => cases he; cases readN_err heq
        · split at he <;> cases he

theorem isRed_err {h : List Node} {x : Option Nat} {e : Err}
    (he : isRed h x = .error e) : e = .nullDeref := by
  unfold isRed at he
  split at he
  · cases he
  · split at he
    · next e' heq => cases he; exact readN_err heq
    · cases he

/-- `fixupFrom` can run out of fuel or dereference null on a malformed
heap, but it can never make `rotateWithParent` throw on a parentless node:
every rotation it requests is on a node whose `parent` field is non-null at
the moment of the call (for the second zig-zag rotation this relies on
`rotate_ok_parent_some`). -/
theorem fixupFrom_ne_rootRot : ∀ (fuel : Nat) (st : St) (i : Nat),
    fixupFrom fuel st i ≠ .error .rootRot := by
  intro fuel
  induction fuel with
  | zero => intro st i; unfold fixupFrom; simp
  | succ fuel ih =>
    intro st i
    unfold fixupFrom
    split
    · next e heq => intro hc; cases hc; cases readN_err heq
    · next nd heqnd =>
      split
      · simp
      · next p heqp =>
        split
        · next e heq => intro hc; cases hc; cases readN_err heq
        · next pd heqpd =>
          split
          · next e heq => intro hc; cases hc; cases siblingOf_err heq
          · split
            · next e heq => intro hc; cases hc; cases siblingOf_err heq
            · split
              · next e heq => intro hc; cases hc; cases isRed_err heq
              · split
                · next e heq => intro hc; cases hc; cases isRed_err heq
                · split
                  · simp
                  · split
                    · simp
                    · split
                      · -- 3-node with red parent: the rotating cases
                        split
                        · simp
                        · next g heqg =>
                          split
                          · next e heq => intro hc; cases hc; cases readN_err heq
                          · next gd heqgd =>
                            split
                            · -- zig-zag: two rotations
                              split
                              · next e heq =>
                                intro hc; cases hc
                                exact rotate_ne_rootRot (readN_ok_iff.1 heqnd) heqp heq
                              · next st1 heq1 =>
                                split
                                · next e heq2 =>
                                  intro hc; cases hc
                                  obtain ⟨nd', x, hnd', hx⟩ :=
                                    rotate_ok_parent_some (readN_ok_iff.1 heqnd) heqp
                                      (readN_ok_iff.1 heqpd) heqg heq1
                                  exact rotate_ne_rootRot hnd' hx heq2
                                · simp
                            · -- zig-zig: one rotation on the parent
                              split
                              · next e heq =>
                                intro hc; cases hc
                                exact rotate_ne_rootRot (readN_ok_iff.1 heqpd) heqg heq
                              · simp
                      · -- 4-node: recolor and recurse from the grandparent
                        split
                        · simp
                        · split
                          · simp
                          · exact ih _ _

theorem insertKeyLoop_ne_rootRot (key : Int) :
    ∀ (fuel : Nat) (h : List Node) (prev curr : Option Nat),
      insertKeyLoop key fuel h prev curr ≠ .error .rootRot := by
  intro fuel
  induction fuel with
  | zero => intro h prev curr; unfold insertKeyLoop; simp
  | succ fuel ih =>
    intro h prev curr
    unfold insertKeyLoop
    split
    · simp
    · split
      · next e heq => intro hc; cases hc; cases readN_err heq
      · split
        · simp
        · split
          · exact ih _ _ _
          · exact ih _ _ _

theorem insertKey_ne_rootRot (fuel : Nat) (st : St) (key : Int) :
    insertKey fuel st key ≠ .error .rootRot := by
  unfold insertKey
  split
  · next e heq => intro hc; cases hc; exact insertKeyLoop_ne_rootRot key _ _ _ _ heq
  · split
    · simp
    · dsimp only
      split
      · simp
      · split
        · next e heq => intro hc; cases hc; cases readN_err heq
        · split <;> simp

theorem insert_ne_rootRot (fuel : Nat) (st : St) (key : Int) :
    insert fuel st key ≠ .error .rootRot := by
  unfold insert
  split
  · next e heq => intro hc; cases hc; exact insertKey_ne_rootRot _ _ _ heq
  · split
    · simp
    · split
      · next e heq => intro hc; cases hc; exact fixupFrom_ne_rootRot _ _ _ heq
      · simp

/-- C1: the claim states that after every finite sequence of `insert` calls
on the initially empty tree all of invariants 1-6 hold, in particular the
size invariant `size(n) = 1 + size(n.left) + size(n.right)`.  The code
violates this: after inserting 1, 2, 3 (a zig-zig fixup, whose rotation
executes `oldParent->size = node->size`), the node holding 1 has no
children but carries `size = 2`, so invariant 5 fails. -/
theorem C1_size_invariant_violated :
    insertList 20 [1, 2, 3] =
      .ok { nodes :=
              [{ key := 1, color := .RED, left := none, right := none, parent := some 1, size := 2 },
               { key := 2, color := .BLACK, left := some 0, right := some 2, parent := none, size := 4 },
               { key := 3, color := .RED, left := none, right := none, parent := some 1, size := 1 }],
            root := some 1 } ∧
    sizeInvHolds
      { nodes :=
          [{ key := 1, color := .RED, left := none, right := none, parent := some 1, size := 2 },
           { key := 2, color := .BLACK, left := some 0, right := some 2, parent := none, size := 4 },
           { key := 3, color := .RED, left := none, right := none, parent := some 1, size := 1 }],
        root := some 1 } = false :=
  ⟨rfl, rfl⟩

/-- C2: the claim states that inserting a key already present returns false
and leaves every node unmodified.  The code violates the second half:
`insertKey` increments `size` of every node on the search path (including
the node holding the key) before detecting the duplicate and never undoes
the increments.  Inserting 1 into the tree that already holds exactly the
key 1 returns false but bumps the root's size counter from 1 to 2. -/
theorem C2_duplicate_insert_mutates :
    insertList 20 [1] =
      .ok { nodes := [{ key := 1, color := .BLACK, left := none, right := none, parent := none, size := 1 }],
            root := some 0 } ∧
    insert 20
      { nodes := [{ key := 1, color := .BLACK, left := none, right := none, parent := none, size := 1 }],
        root := some 0 } 1 =
      .ok ({ nodes := [{ key := 1, color := .BLACK, left := none, right := none, parent := none, size := 2 }],
             root := some 0 }, false) ∧
    ({ nodes := [{ key := 1, color := .BLACK, left := none, right := none, parent := none, size := 2 }],
       root := some 0 } : St) ≠
      { nodes := [{ key := 1, color := .BLACK, left := none, right := none, parent := none, size := 1 }],
        root := some 0 } :=
  ⟨rfl, rfl, by decide⟩

/-- C3: the claim states that for every finite set of distinct integers
inserted in any order, `contains(k)` is true exactly for the inserted keys
(and `contains` is false on the empty tree).  The code violates it: the
distinct keys 1, 3, 2 cannot even be inserted — the third `insert` triggers
the zig-zag fixup case, whose first rotation leaves the rotated node with a
null left child and then dereferences it through
`node->size = node->left->size + node->right->size + 1`, so the sequence
crashes instead of producing a tree in which `contains(2)` is true.
(The empty-tree half does hold.) -/
theorem C3_membership_insert_crashes :
    insertList 20 [1, 3, 2] = .error .nullDeref ∧
    insertList 20 [1, 3] =
      .ok { nodes :=
              [{ key := 1, color := .BLACK, left := none, right := some 1, parent := none, size := 2 },
               { key := 3, color := .RED, left := none, right := none, parent := some 0, size := 1 }],
            root := some 0 } ∧
    insert 20
      { nodes :=
          [{ key := 1, color := .BLACK, left := none, right := some 1, parent := none, size := 2 },
           { key := 3, color := .RED, left := none, right := none, parent := some 0, size := 1 }],
        root := some 0 } 2 = .error .nullDeref ∧
    containsE 20 { nodes := [], root := none } 2 = .ok false ∧
    containsE 20 { nodes := [], root := none } 0 = .ok false :=
  ⟨rfl, rfl, rfl, rfl, rfl⟩

/-- C4: the claim states that for a present key `rankOf` returns its 0-based
position in ascending order, adding `size(node.left)` when the descent
reaches the node holding the key.  The code only performs that addition when
the key sits at the root (the in-loop equal branch is dead code because the
loop guard already excludes equality), so for a key found deeper with a
non-empty left subtree the left subtree is never counted: on the tree built
from 10, 5, 20, 3, 7, 15, 25, `rankOf(20)` returns 4 although 5 keys are
smaller than 20, and `rankOf(5)` returns 0 although 1 key is smaller. -/
theorem C4_rankOf_drops_left_subtree :
    insertList 20 [10, 5, 20, 3, 7, 15, 25] = .ok tree7 ∧
    rankOfE 20 tree7 20 = .ok 4 ∧
    (([3, 5, 7, 10, 15, 20, 25] : List Int).filter (fun x => x < 20)).length = 5 ∧
    rankOfE 20 tree7 5 = .ok 0 ∧
    (([3, 5, 7, 10, 15, 20, 25] : List Int).filter (fun x => x < 5)).length = 1 :=
  ⟨rfl, rfl, rfl, rfl, rfl⟩

/-- C5: the claim states that `select(r)` returns the key at 0-based
position `r`, recomputing the running rank on a left descent as
`size(newNode.left)`.  The code instead executes
`currentRank = current->left->size` — the size of the whole node being
moved to, not of that node's left subtree — and on a right descent adds
nothing when the new node has no left child.  On the tree built from
10, 5, 20, 3, 7, 15, 25: `select(1)` returns 3 although the key at
position 1 is 5, and `select(0)` dereferences a null pointer
(`current->left` of the node holding 3). -/
theorem C5_select_misrecomputes_rank :
    insertList 20 [10, 5, 20, 3, 7, 15, 25] = .ok tree7 ∧
    selectE 20 tree7 1 = .ok 3 ∧
    ([3, 5, 7, 10, 15, 20, 25] : List Int)[1]? = some 5 ∧
    selectE 20 tree7 0 = .error .nullDeref :=
  ⟨rfl, rfl, rfl, rfl⟩

/-- C6: the claim states the inverse laws `rankOf(select(r)) == r` and
`select(rankOf(k)) == k` on every tree built by insertions.  Both fail on
the tree built from 10, 5, 20, 3, 7, 15, 25: `select(1)` returns 3 and
`rankOf(3)` returns 0, so `rankOf(select(1)) = 0 ≠ 1`; and `rankOf(5)`
returns 0 while `select(0)` dereferences a null pointer, so
`select(rankOf(5))` crashes instead of returning 5. -/
theorem C6_rank_select_inverse_fails :
    insertList 20 [10, 5, 20, 3, 7, 15, 25] = .ok tree7 ∧
    selectE 20 tree7 1 = .ok 3 ∧ rankOfE 20 tree7 3 = .ok 0 ∧
    rankOfE 20 tree7 5 = .ok 0 ∧ selectE 20 tree7 0 = .error .nullDeref :=
  ⟨rfl, rfl, rfl, rfl, rfl⟩

/-- C9: the claim lists the expected results of the spec's end-to-end
scenario on the keys 10, 5, 20, 3, 7, 15, 25.  The code meets five of the
seven expectations — `contains(7)` true, `contains(8)` false,
`rankOf(3) = 0`, `rankOf(25) = 6`, `select(3) = 10` — but `select(0)`
and `select(6)` both dereference a null pointer instead of returning 3
and 25. -/
theorem C9_scenario_select_crashes :
    insertList 20 [10, 5, 20, 3, 7, 15, 25] = .ok tree7 ∧
    containsE 20 tree7 7 = .ok true ∧
    containsE 20 tree7 8 = .ok false ∧
    rankOfE 20 tree7 3 = .ok 0 ∧
    rankOfE 20 tree7 25 = .ok 6 ∧
    selectE 20 tree7 3 = .ok 10 ∧
    selectE 20 tree7 0 = .error .nullDeref ∧
    selectE 20 tree7 6 = .error .nullDeref :=
  ⟨rfl, rfl, rfl, rfl, rfl, rfl, rfl, rfl⟩

/-- C7 counterexample: the claim states that for a non-root node of a tree
whose sizes satisfy invariant 5, `rotateWithParent` restores the size
invariant everywhere and that the final recomputation of the rotated node's
size is well-defined even with an absent child.  Both parts fail on
concrete size-correct inputs: rotating the node holding 2 in `zigzigPre`
succeeds but leaves the old parent (no children) with size 2, violating
invariant 5; rotating the childless node holding 2 in `zigzagPre` leaves
its left child absent and the recomputation dereferences the null pointer. -/
theorem C7_counterexample :
    sizeInvHolds zigzigPre = true ∧
    rotateWithParent zigzigPre 1 =
      .ok { nodes :=
              [{ key := 1, color := .BLACK, left := none, right := none, parent := some 1, size := 2 },
               { key := 2, color := .RED, left := some 0, right := some 2, parent := none, size := 4 },
               { key := 3, color := .BLACK, left := none, right := none, parent := some 1, size := 1 }],
            root := some 1 } ∧
    sizeInvHolds
      { nodes :=
          [{ key := 1, color := .BLACK, left := none, right := none, parent := some 1, size := 2 },
           { key := 2, color := .RED, left := some 0, right := some 2, parent := none, size := 4 },
           { key := 3, color := .BLACK, left := none, right := none, parent := some 1, size := 1 }],
        root := some 1 } = false ∧
    sizeInvHolds zigzagPre = true ∧
    rotateWithParent zigzagPre 2 = .error .nullDeref :=
  ⟨rfl, rfl, rfl, rfl, rfl⟩

/-- C8: calling `rotateWithParent` on a node with no parent fails fatally
(the C++ `throw`, modelled as the error `Err.rootRot`; the check is the very
first statement and an error result carries no mutated state, so the tree is
unchanged), and no `insert` — hence no `fixupFrom` — can ever reach that
throw: every rotation `fixupFrom` requests is on a node with a non-null
parent pointer.  The second conjunct is proved for every state whatsoever,
which covers in particular every tree satisfying the invariants. -/
theorem C8_root_rotation_guard :
    (∀ (st : St) (i : Nat) (nd : Node), st.nodes[i]? = some nd → nd.parent = none →
        rotateWithParent st i = .error .rootRot) ∧
    (∀ (fuel : Nat) (st : St) (key : Int), insert fuel st key ≠ .error .rootRot) :=
  ⟨fun _ _ _ hnd hp => rotate_rootRot_of_parentless hnd hp,
   fun fuel st key => insert_ne_rootRot fuel st key⟩

/-- Witness for C8 at concrete inputs: rotating the root of a singleton tree
raises the fatal error, and a concrete insert never produces it. -/
theorem C8_witness :
    rotateWithParent
      { nodes := [{ key := 1, color := .BLACK, left := none, right := none, parent := none, size := 1 }],
        root := some 0 } 0 = .error .rootRot ∧
    insert 20 { nodes := [], root := none } 1 ≠ .error .rootRot :=
  ⟨C8_root_rotation_guard.1 _ 0 _ rfl rfl, C8_root_rotation_guard.2 20 _ 1⟩

/-! ## rankOf terminates without null dereference on absent keys -/

theorem rankLoop_total (key : Int) (h : List Node) :
    ∀ (t : FTree) (cur : Option Nat) (rank fuel : Nat),
      Models h cur t → key ∉ t.keys → t.sz < fuel →
      ∃ c, rankLoop key fuel h cur rank = .ok c := by
  intro t
  induction t with
  | leaf =>
    intro cur rank fuel hm _ hf
    cases hm
    match fuel, hf with
    | fuel + 1, _ => exact ⟨rank, rfl⟩
  | node l k r ihl ihr =>
    intro cur rank fuel hm hk hf
    cases hm with
    | node hnd hml hmr =>
      next i nd =>
      match fuel, hf with
      | fuel + 1, hf =>
        simp only [FTree.keys, List.mem_append, List.mem_cons, not_or] at hk
        obtain ⟨hkl, hkne, hkr⟩ := hk
        have hszl : l.sz < fuel := by
          simp only [FTree.sz] at hf; omega
        have hszr : r.sz < fuel := by
          simp only [FTree.sz] at hf; omega
        unfold rankLoop
        simp only [readN_ok_iff.2 hnd]
        rw [if_neg (by simpa using fun hc => hkne hc.symm)]
        rcases lt_trichotomy key nd.key with hlt | heq | hgt
        · rw [if_neg (by simpa using not_lt_of_lt hlt)]
          exact ihl nd.left rank fuel hml hkl hszl
        · exact absurd heq hkne
        · rw [if_pos (by simpa using hgt)]
          cases hleft : nd.left with
          | none => exact ihr nd.right (rank + 1) fuel hmr hkr hszr
          | some lId =>
            rw [hleft] at hml
            cases hml with
            | node hlnd _ _ =>
              simp only [readN_ok_iff.2 hlnd]
              exact ihr nd.right _ fuel hmr hkr hszr

theorem rankOf_total_of_absent {h : List Node} {r : Nat} {t : FTree} {key : Int}
    {fuel : Nat} (hm : Models h (some r) t) (hk : key ∉ t.keys) (hf : t.sz < fuel) :
    ∃ c, rankOfE fuel { nodes := h, root := some r } key = .ok c := by
  cases hm with
  | node hnd hml hmr =>
    next i nd =>
    simp only [FTree.keys, List.mem_append, List.mem_cons, not_or] at hk
    obtain ⟨hkl, hkne, hkr⟩ := hk
    unfold rankOfE
    simp only [readP, readN_ok_iff.2 hnd]
    rw [if_neg (by simpa using fun hc => hkne hc.symm)]
    exact rankLoop_total key h _ (some r) 0 fuel (Models.node hnd hml hmr)
      (by simp only [FTree.keys, List.mem_append, List.mem_cons, not_or]
          exact ⟨hkl, hkne, hkr⟩) hf

/-- Constructor of `Models` with the key given separately, convenient for
`refine`. -/
theorem Models.node' {h : List Node} {i : Nat} {nd : Node} {l r : FTree} {k : Int}
    (hnd : h[i]? = some nd) (hk : nd.key = k)
    (hl : Models h nd.left l) (hr : Models h nd.right r) :
    Models h (some i) (.node l k r) := hk ▸ Models.node hnd hl hr

/-- The heap of `tree7` lays out the abstract tree `t7F`. -/
theorem t7_models : Models tree7.nodes (some 0) t7F := by
  unfold t7F tree7
  repeat' first
    | exact Models.leaf
    | refine Models.node' rfl rfl ?_ ?_

/-- C10: the claim states that on every non-empty tree, `rankOf` on an
absent key terminates normally and returns a partial count instead of
failing or signalling absence, and that for some inputs the result is
indistinguishable from the rank of a present key.  Both parts hold: the
first for every represented non-empty linked tree and every absent key
(every dereference in the loop is either guarded or on a node the tree
representation supplies), and concretely on the tree built from
10, 5, 20, 3, 7, 15, 25 the absent key 8 yields `rankOf(8) = 3`, the very
value `rankOf(10)` returns for the present key 10. -/
theorem C10_rankOf_absent_total :
    (∀ (h : List Node) (r : Nat) (t : FTree) (key : Int) (fuel : Nat),
        Models h (some r) t → key ∉ t.keys → t.sz < fuel →
        ∃ c, rankOfE fuel { nodes := h, root := some r } key = .ok c) ∧
    (insertList 20 [10, 5, 20, 3, 7, 15, 25] = .ok tree7 ∧
      rankOfE 20 tree7 8 = .ok 3 ∧ rankOfE 20 tree7 10 = .ok 3 ∧
      containsE 20 tree7 8 = .ok false ∧ containsE 20 tree7 10 = .ok true) :=
  ⟨fun _ _ _ _ _ hm hk hf => rankOf_total_of_absent hm hk hf,
   rfl, rfl, rfl, rfl, rfl⟩

/-- Witness for C10 at a concrete input: the key 8 is absent from the tree
laid out by `tree7`, whose size is below the fuel bound, and the universal
part of the claim theorem then yields a normal result. -/
theorem C10_witness :
    (8 : Int) ∉ t7F.keys ∧ t7F.sz < 20 ∧
    ∃ c, rankOfE 20 { nodes := tree7.nodes, root := some 0 } 8 = .ok c :=
  ⟨by decide, by decide,
   C10_rankOf_absent_total.1 tree7.nodes 0 t7F 8 20 t7_models (by decide) (by decide)⟩

/-! ## The size bookkeeping a successful rotation actually performs

These lemmas track the two assignments `oldParent->size = node->size;` and
`node->size = node->left->size + node->right->size + 1;` through the stages
of `rotateWithParent`, for any heap in which the rotated node `i`, its
parent `p` and their links form no degenerate self-loops. -/

theorem rotFinal_ok_spec {h6 : List Node} {root2 : Option Nat} {i : Nat} {st' : St}
    {nd6 : Node} (h6i : h6[i]? = some nd6)
    (hl : nd6.left ≠ some i) (hr : nd6.right ≠ some i)
    (hrot : rotFinal h6 root2 i = .ok st') :
    (∀ q, q ≠ i → st'.nodes[q]? = h6[q]?) ∧
    (∃ nd' l r ld rd, st'.nodes[i]? = some nd' ∧ nd'.left = some l ∧ nd'.right = some r ∧
      st'.nodes[l]? = some ld ∧ st'.nodes[r]? = some rd ∧
      nd'.size = ld.size + rd.size + 1) := by
  unfold rotFinal at hrot
  simp only [readN_ok_iff.2 h6i] at hrot
  split at hrot
  · cases hrot
  · next ld heql =>
    split at hrot
    · cases hrot
    · next rd heqr =>
      cases hrot
      obtain ⟨l, hleq, hld⟩ := readP_ok heql
      obtain ⟨r, hreq, hrd⟩ := readP_ok heqr
      have hli : l ≠ i := fun hc => hl (by rw [hleq, hc])
      have hri : r ≠ i := fun hc => hr (by rw [hreq, hc])
      constructor
      · intro q hq
        show (upd h6 i _)[q]? = h6[q]?
        rw [upd_getElem, if_neg hq]
      · refine ⟨{ nd6 with size := ld.size + rd.size + 1 }, l, r, ld, rd, ?_, hleq, hreq,
          ?_, ?_, rfl⟩
        · show (upd h6 i _)[i]? = _
          rw [upd_getElem, if_pos rfl, h6i]
          rfl
        · show (upd h6 i _)[l]? = some ld
          rw [upd_getElem, if_neg hli]
          exact hld
        · show (upd h6 i _)[r]? = some rd
          rw [upd_getElem, if_neg hri]
          exact hrd

theorem rotSizes_ok_spec {h5 : List Node} {root2 : Option Nat} {i p : Nat} {st' : St}
    {nd5 pd5 : Node} (h5i : h5[i]? = some nd5) (h5p : h5[p]? = some pd5) (hip : i ≠ p)
    (hl : nd5.left ≠ some i) (hr : nd5.right ≠ some i)
    (hrot : rotSizes h5 root2 i p = .ok st') :
    (∃ pd', st'.nodes[p]? = some pd' ∧ pd'.size = nd5.size) ∧
    (∃ nd' l r ld rd, st'.nodes[i]? = some nd' ∧ nd'.left = some l ∧ nd'.right = some r ∧
      st'.nodes[l]? = some ld ∧ st'.nodes[r]? = some rd ∧
      nd'.size = ld.size + rd.size + 1) := by
  unfold rotSizes at hrot
  simp only [readN_ok_iff.2 h5i] at hrot
  have h6i : (upd h5 p (fun n => { n with size := nd5.size }))[i]? = some nd5 := by
    rw [upd_getElem, if_neg hip, h5i]
  obtain ⟨hframe, hb⟩ := rotFinal_ok_spec h6i hl hr hrot
  refine ⟨⟨{ pd5 with size := nd5.size }, ?_, rfl⟩, hb⟩
  rw [hframe p (Ne.symm hip), upd_getElem, if_pos rfl, h5p]
  rfl

theorem rotParents_ok_spec {h3 : List Node} {root2 : Option Nat} {i p : Nat} {st' : St}
    {nd3 pd3v : Node} (h3i : h3[i]? = some nd3) (h3p : h3[p]? = some pd3v) (hip : i ≠ p)
    (hl : nd3.left ≠ some i) (hr : nd3.right ≠ some i)
    (hrot : rotParents h3 root2 i p = .ok st') :
    (∃ pd', st'.nodes[p]? = some pd' ∧ pd'.size = nd3.size) ∧
    (∃ nd' l r ld rd, st'.nodes[i]? = some nd' ∧ nd'.left = some l ∧ nd'.right = some r ∧
      st'.nodes[l]? = some ld ∧ st'.nodes[r]? = some rd ∧
      nd'.size = ld.size + rd.size + 1) := by
  unfold rotParents at hrot
  simp only [readN_ok_iff.2 h3p] at hrot
  have h5i : (upd (upd h3 i (fun n => { n with parent := pd3v.parent })) p
      (fun n => { n with parent := some i }))[i]? =
      some { nd3 with parent := pd3v.parent } := by
    rw [upd_getElem, if_neg hip, upd_getElem, if_pos rfl, h3i]
    rfl
  have h5p : (upd (upd h3 i (fun n => { n with parent := pd3v.parent })) p
      (fun n => { n with parent := some i }))[p]? =
      some { pd3v with parent := some i } := by
    rw [upd_getElem, if_pos rfl, upd_getElem, if_neg (Ne.symm hip), h3p]
    rfl
  have hres := rotSizes_ok_spec h5i h5p hip hl hr hrot
  exact hres

theorem rotChildFix_ok_spec {h2 : List Node} {root2 : Option Nat} {i p : Nat}
    {child : Option Nat} {st' : St} {nd2 pd2 : Node}
    (h2i : h2[i]? = some nd2) (h2p : h2[p]? = some pd2) (hip : i ≠ p)
    (hci : child ≠ some i)
    (hl : nd2.left ≠ some i) (hr : nd2.right ≠ some i)
    (hrot : rotChildFix h2 root2 i p child = .ok st') :
    (∃ pd', st'.nodes[p]? = some pd' ∧ pd'.size = nd2.size) ∧
    (∃ nd' l r ld rd, st'.nodes[i]? = some nd' ∧ nd'.left = some l ∧ nd'.right = some r ∧
      st'.nodes[l]? = some ld ∧ st'.nodes[r]? = some rd ∧
      nd'.size = ld.size + rd.size + 1) := by
  unfold rotChildFix at hrot
  split at hrot
  · next _ c =>
    have hic : i ≠ c := by
      intro hh
      exact hci (by rw [hh])
    have h3i : (upd h2 c (fun n => { n with parent := some p }))[i]? = some nd2 := by
      rw [upd_getElem, if_neg hic, h2i]
    by_cases hpc : p = c
    · have h3p : (upd h2 c (fun n => { n with parent := some p }))[p]? =
          some { pd2 with parent := some p } := by
        rw [upd_getElem, if_pos hpc, h2p]
        rfl
      exact rotParents_ok_spec h3i h3p hip hl hr hrot
    · have h3p : (upd h2 c (fun n => { n with parent := some p }))[p]? = some pd2 := by
        rw [upd_getElem, if_neg hpc, h2p]
      exact rotParents_ok_spec h3i h3p hip hl hr hrot
  · exact rotParents_ok_spec h2i h2p hip hl hr hrot

theorem rotGrand_ok_spec {h1 : List Node} {root : Option Nat} {i p : Nat}
    {child : Option Nat} {st' : St} {nd1 pd1 : Node}
    (h1i : h1[i]? = some nd1) (h1p : h1[p]? = some pd1) (hip : i ≠ p)
    (hgi : pd1.parent ≠ some i) (hci : child ≠ some i)
    (hl : nd1.left ≠ some i) (hr : nd1.right ≠ some i)
    (hrot : rotGrand h1 root i p child = .ok st') :
    (∃ pd', st'.nodes[p]? = some pd' ∧ pd'.size = nd1.size) ∧
    (∃ nd' l r ld rd, st'.nodes[i]? = some nd' ∧ nd'.left = some l ∧ nd'.right = some r ∧
      st'.nodes[l]? = some ld ∧ st'.nodes[r]? = some rd ∧
      nd'.size = ld.size + rd.size + 1) := by
  unfold rotGrand at hrot
  simp only [readN_ok_iff.2 h1p] at hrot
  split at hrot
  · next g heqg =>
    have hig : i ≠ g := by
      intro hh
      exact hgi (by rw [heqg, hh])
    split at hrot
    · cases hrot
    · next gd heqgd =>
      have hg1 : h1[g]? = some gd := readN_ok_iff.1 heqgd
      split at hrot
      · have h2i : (upd h1 g (fun n => { n with left := some i }))[i]? = some nd1 := by
          rw [upd_getElem, if_neg hig, h1i]
        by_cases hpg : p = g
        · have h2p : (upd h1 g (fun n => { n with left := some i }))[p]? =
              some { pd1 with left := some i } := by
            rw [upd_getElem, if_pos hpg, h1p]
            rfl
          exact rotChildFix_ok_spec h2i h2p hip hci hl hr hrot
        · have h2p : (upd h1 g (fun n => { n with left := some i }))[p]? = some pd1 := by
            rw [upd_getElem, if_neg hpg, h1p]
          exact rotChildFix_ok_spec h2i h2p hip hci hl hr hrot
      · have h2i : (upd h1 g (fun n => { n with right := some i }))[i]? = some nd1 := by
          rw [upd_getElem, if_neg hig, h1i]
        by_cases hpg : p = g
        · have h2p : (upd h1 g (fun n => { n with right := some i }))[p]? =
              some { pd1 with right := some i } := by
            rw [upd_getElem, if_pos hpg, h1p]
            rfl
          exact rotChildFix_ok_spec h2i h2p hip hci hl hr hrot
        · have h2p : (upd h1 g (fun n => { n with right := some i }))[p]? = some pd1 := by
            rw [upd_getElem, if_neg hpg, h1p]
          exact rotChildFix_ok_spec h2i h2p hip hci hl hr hrot
  · exact rotChildFix_ok_spec h1i h1p hip hci hl hr hrot

/-- C7 (amended): for a non-root node `N` (with well-formed links: `N` is
not its own parent and no link points a node to itself), a *successful*
`rotateWithParent` sets the old parent's size to `N`'s pre-rotation size and
sets `N`'s size to `1 + size(N.left) + size(N.right)` over the now-updated
children — both of which are necessarily present, because with an absent
child the recomputation dereferences a null pointer instead (so it is not
well-defined in that case, and `C7_counterexample` shows the resulting
sizes need not satisfy the size invariant). -/
theorem C7_rotation_size_mechanism {st : St} {i p : Nat} {nd pd : Node} {st' : St}
    (hnd : st.nodes[i]? = some nd) (hp : nd.parent = some p)
    (hpd : st.nodes[p]? = some pd)
    (hip : i ≠ p) (hgpi : pd.parent ≠ some i)
    (hli : nd.left ≠ some i) (hri : nd.right ≠ some i)
    (hrot : rotateWithParent st i = .ok st') :
    (∃ pd', st'.nodes[p]? = some pd' ∧ pd'.size = nd.size) ∧
    (∃ nd' l r ld rd, st'.nodes[i]? = some nd' ∧ nd'.left = some l ∧ nd'.right = some r ∧
      st'.nodes[l]? = some ld ∧ st'.nodes[r]? = some rd ∧
      nd'.size = ld.size + rd.size + 1) := by
  unfold rotateWithParent at hrot
  simp only [readN_ok_iff.2 hnd, hp, readN_ok_iff.2 hpd] at hrot
  have hpi : ¬ p = i := fun hh => hip hh.symm
  split at hrot
  · have h1i : (upd (upd st.nodes i (fun n => { n with right := some p })) p
        (fun n => { n with left := nd.right }))[i]? =
        some { nd with right := some p } := by
      rw [upd_getElem, if_neg hip, upd_getElem, if_pos rfl, hnd]
      rfl
    have h1p : (upd (upd st.nodes i (fun n => { n with right := some p })) p
        (fun n => { n with left := nd.right }))[p]? =
        some { pd with left := nd.right } := by
      rw [upd_getElem, if_pos rfl, upd_getElem, if_neg hpi, hpd]
      rfl
    have hres := rotGrand_ok_spec h1i h1p hip hgpi hri hli
      (fun hc => hip (Option.some.inj hc).symm) hrot
    exact hres
  · have h1i : (upd (upd st.nodes i (fun n => { n with left := some p })) p
        (fun n => { n with right := nd.left }))[i]? =
        some { nd with left := some p } := by
      rw [upd_getElem, if_neg hip, upd_getElem, if_pos rfl, hnd]
      rfl
    have h1p : (upd (upd st.nodes i (fun n => { n with left := some p })) p
        (fun n => { n with right := nd.left }))[p]? =
        some { pd with right := nd.left } := by
      rw [upd_getElem, if_pos rfl, upd_getElem, if_neg hpi, hpd]
      rfl
    have hres := rotGrand_ok_spec h1i h1p hip hgpi hli
      (fun hc => hip (Option.some.inj hc).symm) hri hrot
    exact hres

/-- Witness for the amended C7 at the concrete size-correct input
`zigzigPre`: rotating node 1 (key 2, size 2) succeeds, the old parent
(node 0) ends with size 2 = the rotated node's pre-rotation size, and the
rotated node's size is recomputed from its two updated children. -/
theorem C7_witness :
    (∃ pd', (St.mk
        [{ key := 1, color := .BLACK, left := none, right := none, parent := some 1, size := 2 },
         { key := 2, color := .RED, left := some 0, right := some 2, parent := none, size := 4 },
         { key := 3, color := .BLACK, left := none, right := none, parent := some 1, size := 1 }]
        (some 1)).nodes[0]? = some pd' ∧ pd'.size = 2) ∧
    (∃ nd' l r ld rd, (St.mk
        [{ key := 1, color := .BLACK, left := none, right := none, parent := some 1, size := 2 },
         { key := 2, color := .RED, left := some 0, right := some 2, parent := none, size := 4 },
         { key := 3, color := .BLACK, left := none, right := none, parent := some 1, size := 1 }]
        (some 1)).nodes[1]? = some nd' ∧ nd'.left = some l ∧ nd'.right = some r ∧
      (St.mk
        [{ key := 1, color := .BLACK, left := none, right := none, parent := some 1, size := 2 },
         { key := 2, color := .RED, left := some 0, right := some 2, parent := none, size := 4 },
         { key := 3, color := .BLACK, left := none, right := none, parent := some 1, size := 1 }]
        (some 1)).nodes[l]? = some ld ∧ (St.mk
        [{ key := 1, color := .BLACK, left := none, right := none, parent := some 1, size := 2 },
         { key := 2, color := .RED, left := some 0, right := some 2, parent := none, size := 4 },
         { key := 3, color := .BLACK, left := none, right := none, parent := some 1, size := 1 }]
        (some 1)).nodes[r]? = some rd ∧ nd'.size = ld.size + rd.size + 1) :=
  @C7_rotation_size_mechanism zigzigPre 1 0
    { key := 2, color := .RED, left := none, right := some 2, parent := some 0, size := 2 }
    { key := 1, color := .BLACK, left := none, right := some 1, parent := none, size := 3 }
    (St.mk
      [{ key := 1, color := .BLACK, left := none, right := none, parent := some 1, size := 2 },
       { key := 2, color := .RED, left := some 0, right := some 2, parent := none, size := 4 },
       { key := 3, color := .BLACK, left := none, right := none, parent := some 1, size := 1 }]
      (some 1))
    rfl rfl rfl (by decide) (by decide) (by decide) (by decide) rfl

end RBTree
